import Mathlib

/-!
Verification of the USB weather-station collector (`src/collector.py` and the
snapshot reader in `src/app.py`).

The embedding works on `List Char` for the character-level operations the
collector performs (`str.strip`, `str.split`, `str.lower`, `float(...)`),
wrapped into `String` at the points where the Python code handles whole
strings.  Python dictionaries are modelled as ordered association lists with
replace-in-place insertion, which matches CPython's insertion-ordered dicts.
Python floats parsed from text are idealised as exact decimal numbers
`mant * 10 ^ (-scale)` (no IEEE-754 rounding, no overflow to infinity); the
special values produced by `float("nan")`, `float("inf")` are explicit
constructors.
-/

abbrev Chars := List Char

/-- Whitespace stripped by Python's `str.strip()` (ASCII subset). -/
def isPySpace (c : Char) : Bool :=
  decide (c = ' ' ∨ c = '\t' ∨ c = '\n' ∨ c = '\r' ∨ c = '\x0b' ∨ c = '\x0c')

/-- Model of `str.strip()` on character lists. -/
def stripChars (s : Chars) : Chars :=
  ((s.dropWhile isPySpace).reverse.dropWhile isPySpace).reverse

/-- Model of `str.strip()` on strings. -/
def pyStrip (s : String) : String := (stripChars s.data).asString

/-- Model of ASCII `str.lower()` on a single character. -/
def lowerC (c : Char) : Char :=
  if 65 ≤ c.toNat ∧ c.toNat ≤ 90 then Char.ofNat (c.toNat + 32) else c

/-- Model of `str.lower()` on strings (keys here are ASCII). -/
def pyLower (s : String) : String := (s.data.map lowerC).asString

/-- Model of Python's `s.split(sep)` for a one-character separator:
splits at every occurrence, keeping empty fragments. -/
def splitAllAux (sep : Char) : Chars → List Chars
  | [] => [[]]
  | c :: cs =>
    if c = sep then [] :: splitAllAux sep cs
    else
      match splitAllAux sep cs with
      | [] => [[c]]
      | h :: t => (c :: h) :: t

/-- Model of Python's `s.split(sep, 1)` for a one-character separator:
the text before the first occurrence, and (if the separator occurs)
the entire remainder after it. -/
def splitFirstAux (sep : Char) : Chars → Chars × Option Chars
  | [] => ([], none)
  | c :: cs =>
    if c = sep then ([], some cs)
    else
      let (a, b) := splitFirstAux sep cs
      (c :: a, b)

/-- ASCII decimal digit test, as used by `float(...)` on its mantissa and
exponent digits. -/
def isDigitC (c : Char) : Bool := decide (48 ≤ c.toNat ∧ c.toNat ≤ 57)

/-- Numeric value of an ASCII digit character. -/
def charVal (c : Char) : ℕ := c.toNat - 48

/-- Consume a run of digits (Python additionally allows a single `_`
between two digits).  Returns the accumulated value, the number of digits
consumed and the unconsumed remainder. -/
def digitRunAux : Chars → ℕ → ℕ → ℕ × ℕ × Chars
  | [], acc, n => (acc, n, [])
  | c :: cs, acc, n =>
    if isDigitC c then digitRunAux cs (acc * 10 + charVal c) (n + 1)
    else
      match cs with
      | d :: ds =>
        if c = '_' ∧ n ≠ 0 ∧ isDigitC d then digitRunAux ds (acc * 10 + charVal d) (n + 1)
        else (acc, n, c :: cs)
      | [] => (acc, n, c :: cs)

/-- Optional leading sign of a float literal: returns whether the sign was
`-` and the remainder. -/
def signSplit : Chars → Bool × Chars
  | [] => (false, [])
  | c :: t =>
    if c = '-' then (true, t)
    else if c = '+' then (false, t)
    else (false, c :: t)

/-- Case-insensitive full match against a keyword (`inf`, `infinity`, `nan`). -/
def lowerEq (s : Chars) (pat : String) : Bool := decide (s.map lowerC = pat.data)

/-- Value of Python's `float(text)`: an exact decimal `mant * 10 ^ (-scale)`,
or one of the non-finite specials that `float` also accepts. -/
inductive PyFloat
  | finite (mant : Int) (scale : Int)
  | inf (neg : Bool)
  | nan
deriving DecidableEq

/-- Build the finite result of a parsed float literal from its integer part,
fraction part, fraction length and exponent. -/
def mkFinite (neg : Bool) (ip fp nFrac : ℕ) (e : ℤ) : PyFloat :=
  let mant : ℤ := (ip * 10 ^ nFrac + fp : ℕ)
  .finite (if neg then -mant else mant) ((nFrac : ℤ) - e)

/-- Core of `float(text)` on an already-stripped character list: optional
sign, then `inf`/`infinity`/`nan` (case-insensitive) or a decimal literal
`digits [. digits] [(e|E) [sign] digits]` with at least one mantissa digit.
Note that `float` accepts the non-finite spellings: it never rejects them. -/
def pyFloatCore (s : Chars) : Option PyFloat :=
  let sg := signSplit s
  if lowerEq sg.2 ("inf") || lowerEq sg.2 ("infinity") then some (.inf sg.1)
  else if lowerEq sg.2 ("nan") then some (.nan)
  else
    let ir := digitRunAux sg.2 0 0
    let fr :=
      match ir.2.2 with
      | c :: t => if c = '.' then digitRunAux t 0 0 else (0, 0, ir.2.2)
      | [] => (0, 0, ir.2.2)
    if ir.2.1 + fr.2.1 = 0 then none
    else
      match fr.2.2 with
      | [] => some (mkFinite sg.1 ir.1 fr.1 fr.2.1 0)
      | c :: t =>
        if c = 'e' ∨ c = 'E' then
          let eg := signSplit t
          let er := digitRunAux eg.2 0 0
          if er.2.1 = 0 then none
          else if er.2.2 = ([] : Chars) then
            some (mkFinite sg.1 ir.1 fr.1 fr.2.1 (if eg.1 then -(er.1 : ℤ) else (er.1 : ℤ)))
          else none
        else none

/-- Model of Python's `float(text)`: strip surrounding whitespace, then parse. -/
def pyFloat (s : String) : Option PyFloat := pyFloatCore (stripChars s.data)

/-- Ordered association list modelling a Python `dict` (insertion order,
assignment to an existing key replaces its value in place). -/
def dictInsert : List (String × String) → String → String → List (String × String)
  | [], k, v => [(k, v)]
  | (k', v') :: d, k, v =>
    if k' = k then (k, v) :: d else (k', v') :: dictInsert d k v

/-- Lookup in the association-list model of a `dict`. -/
def dictGet? : List (String × String) → String → Option String
  | [], _ => none
  | (k', v') :: d, k => if k = k' then some v' else dictGet? d k

/-- The vendor alias table of `_normalize_keys` (collector.py lines 28-41). -/
def aliasTable : List (String × String) :=
  [("t", "temperature"), ("temp", "temperature"), ("temperature", "temperature"),
   ("ta", "temperature"),
   ("h", "humidity"), ("hum", "humidity"), ("humidity", "humidity"),
   ("rh", "humidity"),
   ("p", "pressure"), ("pres", "pressure"), ("pressure", "pressure"),
   ("ba", "pressure")]

/-- The canonical key a raw field key resolves to, if any:
`alias.get(key.strip().lower())` in `_normalize_keys`. -/
def canonOf (key : String) : Option String := dictGet? aliasTable (pyLower (pyStrip key))

/-- `_normalize_keys` (collector.py lines 27-47): walk the payload in
iteration order, keep only recognised keys, map them to their canonical
name and strip the values.  Later occurrences overwrite earlier ones. -/
def normalize_keys (payload : List (String × String)) : List (String × String) :=
  payload.foldl
    (fun acc kv =>
      match canonOf kv.1 with
      | some canon => dictInsert acc canon (pyStrip kv.2)
      | none => acc)
    []

/-- Decode failures of `_build_sample`: `KeyError` on a missing canonical
key (the spec's `MissingFieldError`) or `ValueError` from `float(...)`
(the spec's `ValueFormatError`). -/
inductive DecodeError
  | missingField (k : String)
  | valueFormat (k v : String)
deriving DecidableEq

/-- The canonical output unit (collector.py lines 52-57).  `ts` is the
ISO-8601 timestamp string captured at build time. -/
structure Reading where
  ts : String
  temperature_c : PyFloat
  humidity_pct : PyFloat
  pressure_hpa : PyFloat
deriving DecidableEq

/-- `float(data[k])` with its two failure modes, as performed for each
canonical field in `_build_sample`. -/
def getField (data : List (String × String)) (k : String) : Except DecodeError PyFloat :=
  match dictGet? data k with
  | none => .error (.missingField k)
  | some v =>
    match pyFloat v with
    | some f => .ok f
    | none => .error (.valueFormat k v)

/-- `_build_sample` (collector.py lines 50-57): normalise the payload keys,
then read the three canonical fields in source order.  `now` stands for the
`datetime.now(timezone.utc).isoformat()` instant captured at build time. -/
def build_sample (now : String) (payload : List (String × String)) :
    Except DecodeError Reading :=
  let data := normalize_keys payload
  match getField data ("temperature") with
  | .error e => .error e
  | .ok t =>
    match getField data ("humidity") with
    | .error e => .error e
    | .ok h =>
      match getField data ("pressure") with
      | .error e => .error e
      | .ok p => .ok ⟨now, t, h, p⟩

/-- `parse_line` (collector.py lines 60-64): compact single-line grammar.
Split on `,`, keep fragments containing `=`, strip them, split each on the
first `=`, build a dict and hand it to `_build_sample`. -/
def parse_line (now : String) (line : String) : Except DecodeError Reading :=
  let chunks := ((splitAllAux ',' line.data).filter (fun x => x.contains '=')).map stripChars
  let kv := chunks.foldl
    (fun d x =>
      dictInsert d ((splitFirstAux '=' x).1.asString)
        ((((splitFirstAux '=' x).2).getD []).asString))
    []
  build_sample now kv

/-- The key-value map `parse_amws_frame` builds from the buffered lines
(collector.py lines 72-77): ignore lines without `:`, split on the first
`:`, strip the key, and store `value.strip().split(":", 1)[0]`. -/
def amws_kv (lines : List String) : List (String × String) :=
  lines.foldl
    (fun kv line =>
      if line.data.contains ':' then
        dictInsert kv
          (stripChars (splitFirstAux ':' line.data).1).asString
          ((splitFirstAux ':'
            (stripChars (((splitFirstAux ':' line.data).2).getD []))).1.asString)
      else kv)
    []

/-- `parse_amws_frame` (collector.py lines 67-78). -/
def parse_amws_frame (now : String) (lines : List String) : Except DecodeError Reading :=
  build_sample now (amws_kv lines)

/-- `_try_parse_single` (collector.py lines 88-92): any exception from
`parse_line` is swallowed and turned into `None`. -/
def try_parse_single (now : String) (raw : String) : Option Reading :=
  (parse_line now raw).toOption

/-- Decimal digits of a natural number, most significant first.  The fuel
argument is structural; `fuel = n` always suffices. -/
def natDigitsAux : ℕ → ℕ → Chars
  | 0, _ => []
  | _ + 1, 0 => []
  | fuel + 1, n + 1 =>
    natDigitsAux fuel ((n + 1) / 10) ++ [Char.ofNat (48 + (n + 1) % 10)]

/-- Decimal rendering of a natural number. -/
def natChars (n : ℕ) : Chars := if n = 0 then ['0'] else natDigitsAux n n

/-- Decimal rendering of an integer. -/
def intChars (i : ℤ) : Chars :=
  if i < 0 then '-' :: natChars i.natAbs else natChars i.natAbs

/-- Rendering of one float value as `json.dumps` serialises it.  The
non-finite specials are spelled `Infinity`/`-Infinity`/`NaN` exactly as
`json.dumps` emits them; a finite value `mant * 10 ^ (-scale)` is written
in the value-preserving exponent form `⟨mant⟩e⟨-scale⟩` (CPython's `repr`
picks a different but equal-valued decimal spelling). -/
def renderPyFloat : PyFloat → Chars
  | .finite m s => intChars m ++ 'e' :: intChars (-s)
  | .inf neg => if neg then ("-Infinity").data else ("Infinity").data
  | .nan => ("NaN").data

/-- `json.dumps(payload)` for the sample dict written by `write_atomic`
(collector.py lines 52-57 and 81-85): one object with the four fields in
insertion order.  `ts` is emitted verbatim; the round-trip theorem below
restricts itself to timestamps whose characters need no JSON escaping,
which is the case for `datetime.isoformat()` output. -/
def dumps (r : Reading) : String :=
  ("\x7b\"ts\": \"") ++ r.ts ++ ("\", \"temperature_c\": ")
    ++ (renderPyFloat r.temperature_c).asString
    ++ (", \"humidity_pct\": ") ++ (renderPyFloat r.humidity_pct).asString
    ++ (", \"pressure_hpa\": ") ++ (renderPyFloat r.pressure_hpa).asString
    ++ ("\x7d")

/-- Consume an expected literal off the front of a character list. -/
def dropLit : Chars → Chars → Option Chars
  | [], s => some s
  | _ :: _, [] => none
  | c :: cs, d :: ds => if c = d then dropLit cs ds else none

/-- One JSON number token as `json.loads` reads the snapshot values back:
the specials `Infinity`/`-Infinity`/`NaN`, else a decimal literal. -/
def parseJsonNumber (s : Chars) : Option PyFloat :=
  if s = ("Infinity").data then some (.inf false)
  else if s = ("-Infinity").data then some (.inf true)
  else if s = ("NaN").data then some .nan
  else pyFloatCore s

/-- Read one token up to (and consuming) the next occurrence of `sep`;
fails if `sep` never occurs. -/
def readTok (sep : Char) (s : Chars) : Option (Chars × Chars) :=
  match splitFirstAux sep s with
  | (a, some b) => some (a, b)
  | (_, none) => none

/-- The reader side (app.py lines 22-33): `json.loads` of the snapshot
text followed by access to the four fields.  Modelled on records of the
exact shape `write_atomic` produces (its serialisation is canonical, so
field order and spacing are fixed). -/
def loadReading (s : String) : Option Reading :=
  (dropLit ("\x7b\"ts\": \"").data s.data).bind fun s1 =>
  (readTok '"' s1).bind fun p1 =>
  (dropLit (", \"temperature_c\": ").data p1.2).bind fun s3 =>
  (readTok ',' s3).bind fun p2 =>
  (parseJsonNumber p2.1).bind fun tv =>
  (dropLit (" \"humidity_pct\": ").data p2.2).bind fun s5 =>
  (readTok ',' s5).bind fun p3 =>
  (parseJsonNumber p3.1).bind fun hv =>
  (dropLit (" \"pressure_hpa\": ").data p3.2).bind fun s7 =>
  (readTok '\x7d' s7).bind fun p4 =>
  (parseJsonNumber p4.1).bind fun pv =>
  if p4.2 = ([] : Chars) then some ⟨p1.1.asString, tv, hv, pv⟩
  else none

/-- Characters that `json.dumps` copies into the output verbatim (printable
ASCII needing no JSON escape).  `datetime.isoformat()` timestamps consist
solely of such characters. -/
def tsPlain (c : Char) : Prop :=
  32 ≤ c.toNat ∧ c.toNat < 127 ∧ c ≠ '"' ∧ c ≠ '\\'

instance (c : Char) : Decidable (tsPlain c) := by
  unfold tsPlain
  infer_instance

/-- State of the ingestion loop across iterations: the frame buffer and the
content of the published snapshot file (`none` = not yet published). -/
structure LoopState where
  frame : List String
  published : Option String
deriving DecidableEq

/-- Result of one loop iteration: either the next state, or an exception
escaped the loop body (which terminates `main`, since nothing in `main`
catches it). -/
inductive StepResult
  | ok (st : LoopState)
  | crashed
deriving DecidableEq

/-- The defensive cap of collector.py lines 128-130: if the frame exceeds
300 lines it is truncated to its most recent 50 lines. -/
def capFrame (f : List String) : List String :=
  if f.length > 300 then f.drop (f.length - 50) else f

/-- One iteration of the ingestion loop body (collector.py lines 100-132),
given the raw line delivered by the serial port.  `pubOk` models whether
the storage lets `write_atomic` succeed at this instant; when it is
`false`, `write_atomic` raises.  On the single-line path that exception is
not caught by anything (`.crashed`); on the frame path it is caught by the
`except Exception` around the frame publish, whose `finally` still clears
the buffer. -/
def loopStep (pubOk : Bool) (now : String) (st : LoopState) (rawIn : String) : StepResult :=
  let raw := pyStrip rawIn
  if raw = ("") then .ok st
  else
    match try_parse_single now raw with
    | some sample =>
      if pubOk then .ok ⟨st.frame, some (dumps sample)⟩ else .crashed
    | none =>
      let f1 := st.frame ++ [raw]
      if raw = ("~") then
        match parse_amws_frame now f1 with
        | .ok sample =>
          .ok ⟨capFrame ([] : List String),
               if pubOk then some (dumps sample) else st.published⟩
        | .error _ => .ok ⟨capFrame ([] : List String), st.published⟩
      else .ok ⟨capFrame f1, st.published⟩

/-- The published-snapshot content after a loop iteration, or `none` when
the iteration let an exception escape. -/
def resultPublished : StepResult → Option (Option String)
  | .ok st => some st.published
  | .crashed => none

/-- Run the ingestion loop over a finite list of raw lines, stopping if an
iteration lets an exception escape. -/
def runLines (pubOk : Bool) (now : String) : LoopState → List String → StepResult
  | st, [] => .ok st
  | st, l :: ls =>
    match loopStep pubOk now st l with
    | .ok st' => runLines pubOk now st' ls
    | .crashed => .crashed

/-! Helper lemmas about the string-level primitives. -/

theorem data_asString (l : Chars) : (List.asString l).data = l := rfl

theorem asString_data (s : String) : (s.data).asString = s := by
  cases s
  rfl

theorem dataAppend (a b : String) : (a ++ b).data = a.data ++ b.data := rfl

theorem dropWhile_no (p : Char → Bool) :
    ∀ l : Chars, (∀ c ∈ l, p c = false) → l.dropWhile p = l := by
  intro l h
  induction l with
  | nil => rfl
  | cons c t _ =>
    rw [List.dropWhile_cons, h c (by simp)]
    simp

theorem stripChars_no_space (l : Chars) (h : ∀ c ∈ l, isPySpace c = false) :
    stripChars l = l := by
  unfold stripChars
  rw [dropWhile_no _ l h, dropWhile_no _ l.reverse (by simpa using h), List.reverse_reverse]

theorem pyStrip_no_space (s : String) (h : ∀ c ∈ s.data, isPySpace c = false) :
    pyStrip s = s := by
  unfold pyStrip
  rw [stripChars_no_space _ h, asString_data]

theorem splitAllAux_no_sep (sep : Char) :
    ∀ l : Chars, (∀ c ∈ l, c ≠ sep) → splitAllAux sep l = [l] := by
  intro l h
  induction l with
  | nil => rfl
  | cons c t ih =>
    rw [splitAllAux]
    rw [if_neg (h c (by simp)), ih (fun x hx => h x (by simp [hx]))]

theorem splitAllAux_append_sep (sep : Char) :
    ∀ l r : Chars, (∀ c ∈ l, c ≠ sep) →
      splitAllAux sep (l ++ sep :: r) = l :: splitAllAux sep r := by
  intro l r h
  induction l with
  | nil => simp [splitAllAux]
  | cons c t ih =>
    rw [List.cons_append, splitAllAux, if_neg (h c (by simp)),
      ih (fun x hx => h x (by simp [hx]))]

theorem splitFirstAux_boundary (sep : Char) :
    ∀ a b : Chars, (∀ c ∈ a, c ≠ sep) →
      splitFirstAux sep (a ++ sep :: b) = (a, some b) := by
  intro a b h
  induction a with
  | nil => simp [splitFirstAux]
  | cons c t ih =>
    rw [List.cons_append, splitFirstAux, if_neg (h c (by simp)),
      ih (fun x hx => h x (by simp [hx]))]

theorem splitFirstAux_fst (sep : Char) :
    ∀ l : Chars, (splitFirstAux sep l).1 = l.takeWhile (fun c => c != sep) := by
  intro l
  induction l with
  | nil => rfl
  | cons c t ih =>
    rw [splitFirstAux, List.takeWhile_cons]
    by_cases hc : c = sep
    · simp [hc]
    · simp only [if_neg hc, bne_iff_ne, ne_eq, hc, not_false_eq_true, if_pos]
      simpa using ih

theorem splitFirstAux_snd (sep : Char) :
    ∀ l : Chars, l.contains sep = true →
      (splitFirstAux sep l).2 = some ((l.dropWhile (fun c => c != sep)).tail) := by
  intro l h
  induction l with
  | nil => simp at h
  | cons c t ih =>
    rw [splitFirstAux, List.dropWhile_cons]
    by_cases hc : c = sep
    · simp [hc]
    · have ht : t.contains sep = true := by
        simp only [List.contains_cons, Bool.or_eq_true, beq_iff_eq] at h
        rcases h with h1 | h2
        · exact absurd h1.symm hc
        · exact h2
      simp only [if_neg hc, bne_iff_ne, ne_eq, hc, not_false_eq_true, if_pos]
      simpa using ih ht

theorem dictGet?_insert (d : List (String × String)) (k v k' : String) :
    dictGet? (dictInsert d k v) k' = if k' = k then some v else dictGet? d k' := by
  induction d with
  | nil => simp [dictInsert, dictGet?]
  | cons kv d ih =>
    obtain ⟨k0, v0⟩ := kv
    by_cases h0 : k0 = k <;> by_cases h1 : k' = k0 <;>
      simp_all [dictInsert, dictGet?]

theorem dropLit_append : ∀ l s : Chars, dropLit l (l ++ s) = some s := by
  intro l s
  induction l with
  | nil => rfl
  | cons c t ih => simpa [dropLit] using ih

theorem readTok_boundary (sep : Char) (a b : Chars) (h : ∀ c ∈ a, c ≠ sep) :
    readTok sep (a ++ sep :: b) = some (a, b) := by
  rw [readTok, splitFirstAux_boundary sep a b h]

/-! Helper lemmas about digit rendering and the float parser. -/

theorem isDigitC_ofNat (d : ℕ) (h : d < 10) : isDigitC (Char.ofNat (48 + d)) = true := by
  interval_cases d <;> decide

theorem charVal_ofNat (d : ℕ) (h : d < 10) : charVal (Char.ofNat (48 + d)) = d := by
  interval_cases d <;> decide

theorem digit_lowerC (c : Char) (hc : isDigitC c = true) : lowerC c = c := by
  unfold isDigitC at hc
  have hb := of_decide_eq_true hc
  unfold lowerC
  rw [if_neg (by omega)]

theorem digit_ne (c d : Char) (hc : isDigitC c = true) (hd : isDigitC d = false) : c ≠ d := by
  intro h
  subst h
  rw [hc] at hd
  cases hd

theorem natDigitsAux_zero (fuel : ℕ) : natDigitsAux fuel 0 = [] := by
  cases fuel <;> rfl

theorem mem_natDigitsAux_digit :
    ∀ (fuel n : ℕ) (c : Char), c ∈ natDigitsAux fuel n → isDigitC c = true := by
  intro fuel
  induction fuel with
  | zero =>
    intro n c h
    simp [natDigitsAux] at h
  | succ f ih =>
    intro n c h
    match n with
    | 0 => simp [natDigitsAux] at h
    | m + 1 =>
      rw [natDigitsAux] at h
      rcases List.mem_append.mp h with h1 | h2
      · exact ih _ c h1
      · have hc : c = Char.ofNat (48 + (m + 1) % 10) := by simpa using h2
        subst hc
        exact isDigitC_ofNat _ (Nat.mod_lt _ (by norm_num))

theorem natDigitsAux_val :
    ∀ (fuel n acc : ℕ), n ≤ fuel →
      (natDigitsAux fuel n).foldl (fun a c => a * 10 + charVal c) acc =
        acc * 10 ^ (natDigitsAux fuel n).length + n := by
  intro fuel
  induction fuel with
  | zero =>
    intro n acc h2
    have hn : n = 0 := by omega
    subst hn
    simp [natDigitsAux_zero]
  | succ f ih =>
    intro n acc h2
    match n with
    | 0 => simp [natDigitsAux_zero]
    | m + 1 =>
      rw [natDigitsAux, List.foldl_append, List.length_append,
        ih ((m + 1) / 10) acc (by omega)]
      have hr : (m + 1) % 10 < 10 := Nat.mod_lt _ (by norm_num)
      simp only [List.foldl_cons, List.foldl_nil, List.length_cons, List.length_nil]
      rw [charVal_ofNat _ hr]
      have hdm : 10 * ((m + 1) / 10) + (m + 1) % 10 = m + 1 := Nat.div_add_mod (m + 1) 10
      set X := 10 ^ (natDigitsAux f ((m + 1) / 10)).length with hX
      have hpow : 10 ^ ((natDigitsAux f ((m + 1) / 10)).length + (0 + 1)) = X * 10 := by
        rw [hX, pow_succ]
      rw [hpow]
      have : (acc * X + (m + 1) / 10) * 10 + (m + 1) % 10 =
          acc * (X * 10) + (10 * ((m + 1) / 10) + (m + 1) % 10) := by ring
      rw [this, hdm]

theorem natChars_ne_nil (n : ℕ) : natChars n ≠ [] := by
  unfold natChars
  by_cases h : n = 0
  · simp [h]
  · rw [if_neg h]
    obtain ⟨m, rfl⟩ : ∃ m, n = m + 1 := ⟨n - 1, by omega⟩
    rw [natDigitsAux]
    simp

theorem mem_natChars_digit (n : ℕ) (c : Char) (h : c ∈ natChars n) : isDigitC c = true := by
  unfold natChars at h
  by_cases h0 : n = 0
  · rw [if_pos h0] at h
    have : c = '0' := by simpa using h
    subst this
    decide
  · rw [if_neg h0] at h
    exact mem_natDigitsAux_digit n n c h

theorem natChars_val (n acc : ℕ) :
    (natChars n).foldl (fun a c => a * 10 + charVal c) acc =
      acc * 10 ^ (natChars n).length + n := by
  by_cases h : n = 0
  · subst h
    have h0 : natChars 0 = ['0'] := rfl
    rw [h0]
    simp only [List.foldl_cons, List.foldl_nil, List.length_cons, List.length_nil]
    have hc : charVal '0' = 0 := by decide
    rw [hc, Nat.zero_add, pow_one]
  · unfold natChars
    rw [if_neg h]
    exact natDigitsAux_val n n acc (le_refl n)

theorem natChars_head_digit (n : ℕ) :
    ∃ c cs, natChars n = c :: cs ∧ isDigitC c = true := by
  cases hnc : natChars n with
  | nil => exact absurd hnc (natChars_ne_nil n)
  | cons c cs =>
    exact ⟨c, cs, rfl, mem_natChars_digit n c (by rw [hnc]; simp)⟩

theorem mem_intChars (i : ℤ) (c : Char) (h : c ∈ intChars i) :
    c = '-' ∨ isDigitC c = true := by
  unfold intChars at h
  by_cases hi : i < 0
  · rw [if_pos hi] at h
    rcases List.mem_cons.mp h with h1 | h2
    · exact Or.inl h1
    · exact Or.inr (mem_natChars_digit _ _ h2)
  · rw [if_neg hi] at h
    exact Or.inr (mem_natChars_digit _ _ h)

theorem digitRunAux_cons_digit (c : Char) (cs : Chars) (acc n : ℕ)
    (hc : isDigitC c = true) :
    digitRunAux (c :: cs) acc n = digitRunAux cs (acc * 10 + charVal c) (n + 1) := by
  rw [digitRunAux.eq_def]
  simp [hc]

theorem digitRunAux_digits :
    ∀ (l rest : Chars) (acc n : ℕ), (∀ c ∈ l, isDigitC c = true) →
      digitRunAux (l ++ rest) acc n =
        digitRunAux rest (l.foldl (fun a c => a * 10 + charVal c) acc) (n + l.length) := by
  intro l
  induction l with
  | nil =>
    intro rest acc n _
    simp
  | cons c t ih =>
    intro rest acc n h
    have hc : isDigitC c = true := h c (by simp)
    have hl : n + (c :: t).length = (n + 1) + t.length := by
      simp [List.length_cons]
      omega
    rw [hl, List.cons_append, digitRunAux_cons_digit c _ _ _ hc,
      ih rest _ _ (fun x hx => h x (by simp [hx]))]
    simp [List.foldl_cons]

theorem digitRunAux_stop (x : Char) (xs : Chars) (acc n : ℕ)
    (hx : isDigitC x = false) (hu : x ≠ '_') :
    digitRunAux (x :: xs) acc n = (acc, n, x :: xs) := by
  rw [digitRunAux.eq_def]
  cases xs <;> simp [hx, hu]

theorem lowerEq_head_ne (c : Char) (t : Chars) (pat : String)
    (hne : pat.data.head? ≠ some (lowerC c)) : lowerEq (c :: t) pat = false := by
  unfold lowerEq
  apply decide_eq_false
  intro h
  apply hne
  rw [← h]
  rfl

theorem digitRun_natChars (A : ℕ) (x : Char) (xs : Chars)
    (hx : isDigitC x = false) (hu : x ≠ '_') :
    digitRunAux (natChars A ++ x :: xs) 0 0 = (A, (natChars A).length, x :: xs) := by
  rw [digitRunAux_digits (natChars A) (x :: xs) 0 0 (fun c hc => mem_natChars_digit A c hc),
    natChars_val, digitRunAux_stop x xs _ _ hx hu]
  simp

theorem digitRun_natChars_nil (A : ℕ) :
    digitRunAux (natChars A) 0 0 = (A, (natChars A).length, []) := by
  have h := digitRunAux_digits (natChars A) [] 0 0 (fun c hc => mem_natChars_digit A c hc)
  rw [List.append_nil] at h
  rw [h, natChars_val]
  simp [digitRunAux]

theorem signSplit_minus (t : Chars) : signSplit ('-' :: t) = (true, t) := by
  simp [signSplit]

theorem signSplit_digit (c : Char) (t : Chars) (hc : isDigitC c = true) :
    signSplit (c :: t) = (false, c :: t) := by
  simp [signSplit, digit_ne c '-' hc (by decide), digit_ne c '+' hc (by decide)]

theorem natChars_length_pos (n : ℕ) : (natChars n).length ≠ 0 := by
  intro h
  exact natChars_ne_nil n (List.length_eq_zero.mp h)

theorem pyFloatCore_eval (s : Chars) (b : Bool) (A : ℕ) (S : ℤ)
    (hsg : signSplit s = (b, natChars A ++ 'e' :: intChars (-S))) :
    pyFloatCore s = some (.finite (if b then -(A : ℤ) else (A : ℤ)) S) := by
  obtain ⟨c, cs, hnc, hcdig⟩ := natChars_head_digit A
  have hlow := digit_lowerC c hcdig
  have hne_i : ("inf" : String).data.head? ≠ some (lowerC c) := by
    rw [hlow]
    intro h
    have h' : some 'i' = some c := h
    exact (digit_ne c 'i' hcdig (by decide)) (Option.some.inj h').symm
  have hne_ii : ("infinity" : String).data.head? ≠ some (lowerC c) := by
    rw [hlow]
    intro h
    have h' : some 'i' = some c := h
    exact (digit_ne c 'i' hcdig (by decide)) (Option.some.inj h').symm
  have hne_n : ("nan" : String).data.head? ≠ some (lowerC c) := by
    rw [hlow]
    intro h
    have h' : some 'n' = some c := h
    exact (digit_ne c 'n' hcdig (by decide)) (Option.some.inj h').symm
  have h1 : lowerEq (natChars A ++ 'e' :: intChars (-S)) ("inf") = false := by
    rw [hnc, List.cons_append]
    exact lowerEq_head_ne _ _ _ hne_i
  have h2 : lowerEq (natChars A ++ 'e' :: intChars (-S)) ("infinity") = false := by
    rw [hnc, List.cons_append]
    exact lowerEq_head_ne _ _ _ hne_ii
  have h3 : lowerEq (natChars A ++ 'e' :: intChars (-S)) ("nan") = false := by
    rw [hnc, List.cons_append]
    exact lowerEq_head_ne _ _ _ hne_n
  have hir : digitRunAux (natChars A ++ 'e' :: intChars (-S)) 0 0 =
      (A, (natChars A).length, 'e' :: intChars (-S)) :=
    digitRun_natChars A 'e' _ (by decide) (by decide)
  have hnotdot : ('e' : Char) ≠ '.' := by decide
  have hlenA := natChars_length_pos A
  simp only [pyFloatCore, hsg, h1, h2, h3, Bool.or_self, if_false, hir,
    if_neg hnotdot]
  by_cases hS : 0 < S
  · have hE : intChars (-S) = '-' :: natChars S.natAbs := by
      unfold intChars
      rw [if_pos (by omega), Int.natAbs_neg]
    have her : digitRunAux (natChars S.natAbs) 0 0 =
        (S.natAbs, (natChars S.natAbs).length, []) := digitRun_natChars_nil _
    simp only [hE, signSplit_minus, her, Nat.add_zero, true_or, if_true,
      if_neg hlenA, if_neg (natChars_length_pos S.natAbs)]
    unfold mkFinite
    simp only [Bool.false_eq_true, if_false, Option.some.injEq, PyFloat.finite.injEq]
    constructor
    · cases b <;> simp
    · omega
  · have hE : intChars (-S) = natChars S.natAbs := by
      unfold intChars
      rw [if_neg (by omega), Int.natAbs_neg]
    obtain ⟨c2, cs2, hnc2, hdig2⟩ := natChars_head_digit S.natAbs
    have hsg2 : signSplit (natChars S.natAbs) = (false, natChars S.natAbs) := by
      rw [hnc2]
      exact signSplit_digit c2 cs2 hdig2
    have her : digitRunAux (natChars S.natAbs) 0 0 =
        (S.natAbs, (natChars S.natAbs).length, []) := digitRun_natChars_nil _
    simp only [hE, hsg2, her, Nat.add_zero, true_or, if_true,
      if_neg hlenA, if_neg (natChars_length_pos S.natAbs), Bool.false_eq_true, if_false]
    unfold mkFinite
    simp only [Bool.false_eq_true, if_false, Option.some.injEq, PyFloat.finite.injEq]
    constructor
    · cases b <;> simp
    · omega

theorem pyFloatCore_render (M S : ℤ) :
    pyFloatCore (intChars M ++ 'e' :: intChars (-S)) = some (.finite M S) := by
  by_cases hM : M < 0
  · have hI : intChars M = '-' :: natChars M.natAbs := by
      unfold intChars
      rw [if_pos hM]
    have hsg : signSplit (intChars M ++ 'e' :: intChars (-S)) =
        (true, natChars M.natAbs ++ 'e' :: intChars (-S)) := by
      rw [hI, List.cons_append, signSplit_minus]
    rw [pyFloatCore_eval _ true M.natAbs S hsg]
    simp only [if_true, Option.some.injEq, PyFloat.finite.injEq]
    exact ⟨by omega, trivial⟩
  · have hI : intChars M = natChars M.natAbs := by
      unfold intChars
      rw [if_neg hM]
    obtain ⟨c, cs, hnc, hdig⟩ := natChars_head_digit M.natAbs
    have hsg : signSplit (intChars M ++ 'e' :: intChars (-S)) =
        (false, natChars M.natAbs ++ 'e' :: intChars (-S)) := by
      rw [hI, hnc, List.cons_append, signSplit_digit c _ hdig, ← List.cons_append, ← hnc]
    rw [pyFloatCore_eval _ false M.natAbs S hsg]
    simp only [Bool.false_eq_true, if_false, Option.some.injEq, PyFloat.finite.injEq]
    exact ⟨by omega, trivial⟩

theorem render_finite_chars (M S : ℤ) (c : Char)
    (h : c ∈ intChars M ++ 'e' :: intChars (-S)) :
    c = '-' ∨ c = 'e' ∨ isDigitC c = true := by
  rcases List.mem_append.mp h with h1 | h2
  · rcases mem_intChars _ _ h1 with h | h
    · exact Or.inl h
    · exact Or.inr (Or.inr h)
  · rcases List.mem_cons.mp h2 with h | h
    · exact Or.inr (Or.inl h)
    · rcases mem_intChars _ _ h with h | h
      · exact Or.inl h
      · exact Or.inr (Or.inr h)

theorem renderPyFloat_safe (f : PyFloat) :
    ∀ c ∈ renderPyFloat f, c ≠ ',' ∧ c ≠ '\x7d' := by
  intro c hc
  cases f with
  | finite M S =>
    unfold renderPyFloat at hc
    rcases render_finite_chars M S c hc with h | h | h
    · subst h
      exact ⟨by decide, by decide⟩
    · subst h
      exact ⟨by decide, by decide⟩
    · exact ⟨digit_ne c ',' h (by decide), digit_ne c '\x7d' h (by decide)⟩
  | inf neg =>
    cases neg
    · exact (by decide : ∀ x ∈ ("Infinity").data, x ≠ ',' ∧ x ≠ '\x7d') c hc
    · exact (by decide : ∀ x ∈ ("-Infinity").data, x ≠ ',' ∧ x ≠ '\x7d') c hc
  | nan => exact (by decide : ∀ x ∈ ("NaN").data, x ≠ ',' ∧ x ≠ '\x7d') c hc

theorem render_finite_head (M S : ℤ) :
    ∃ c t, intChars M ++ 'e' :: intChars (-S) = c :: t ∧
      (c = '-' ∨ isDigitC c = true) ∧
      (c = '-' → ∃ c2 t2, t = c2 :: t2 ∧ isDigitC c2 = true) := by
  by_cases hM : M < 0
  · obtain ⟨c2, cs2, hnc, hdig⟩ := natChars_head_digit M.natAbs
    refine ⟨'-', natChars M.natAbs ++ 'e' :: intChars (-S), ?_, Or.inl rfl, ?_⟩
    · unfold intChars
      rw [if_pos hM, List.cons_append]
    · intro _
      exact ⟨c2, cs2 ++ 'e' :: intChars (-S), by rw [hnc, List.cons_append], hdig⟩
  · obtain ⟨c2, cs2, hnc, hdig⟩ := natChars_head_digit M.natAbs
    refine ⟨c2, cs2 ++ 'e' :: intChars (-S), ?_, Or.inr hdig, ?_⟩
    · unfold intChars
      rw [if_neg hM, hnc, List.cons_append]
    · intro h
      exact absurd h (digit_ne c2 '-' hdig (by decide))

theorem parseJsonNumber_render (f : PyFloat) :
    parseJsonNumber (renderPyFloat f) = some f := by
  cases f with
  | inf neg => cases neg <;> decide
  | nan => decide
  | finite M S =>
    obtain ⟨c0, t0, heq, hcd, hminus⟩ := render_finite_head M S
    have hA : intChars M ++ 'e' :: intChars (-S) ≠ ("Infinity").data := by
      rw [heq]
      intro h
      have h1 : some c0 = some 'I' := congrArg List.head? h
      have hc0 : c0 = 'I' := Option.some.inj h1
      rcases hcd with h2 | h2
      · exact absurd (h2 ▸ hc0) (by decide)
      · exact digit_ne c0 'I' h2 (by decide) hc0
    have hB : intChars M ++ 'e' :: intChars (-S) ≠ ("-Infinity").data := by
      rw [heq]
      intro h
      have h1 : some c0 = some '-' := congrArg List.head? h
      have hc0 : c0 = '-' := Option.some.inj h1
      obtain ⟨c2, t2, ht, hd2⟩ := hminus hc0
      have h2 : t0 = ("Infinity").data := congrArg List.tail h
      rw [ht] at h2
      have h3 : some c2 = some 'I' := congrArg List.head? h2
      exact digit_ne c2 'I' hd2 (by decide) (Option.some.inj h3)
    have hC : intChars M ++ 'e' :: intChars (-S) ≠ ("NaN").data := by
      rw [heq]
      intro h
      have h1 : some c0 = some 'N' := congrArg List.head? h
      have hc0 : c0 = 'N' := Option.some.inj h1
      rcases hcd with h2 | h2
      · exact absurd (h2 ▸ hc0) (by decide)
      · exact digit_ne c0 'N' h2 (by decide) hc0
    unfold renderPyFloat parseJsonNumber
    rw [if_neg hA, if_neg hB, if_neg hC, pyFloatCore_render]

theorem strExt (s t : String) (h : s.data = t.data) : s = t := by
  cases s
  cases t
  exact congrArg String.mk h

theorem dropLit_step (c : Char) (l s : Chars) : dropLit (c :: l) (c :: s) = dropLit l s := by
  simp [dropLit]

theorem dropLit_nil (s : Chars) : dropLit [] s = some s := rfl

theorem loadReading_build (ts : Chars) (f1 f2 f3 : PyFloat) (hts : ∀ c ∈ ts, c ≠ '"') :
    loadReading (List.asString (("\x7b\"ts\": \"").data ++ (ts ++ (("\", \"temperature_c\": ").data ++
      (renderPyFloat f1 ++ ((", \"humidity_pct\": ").data ++
      (renderPyFloat f2 ++ ((", \"pressure_hpa\": ").data ++
      (renderPyFloat f3 ++ ("\x7d").data))))))))) = some ⟨ts.asString, f1, f2, f3⟩ := by
  have hb1 : ∀ c ∈ renderPyFloat f1, c ≠ ',' := fun c hc => (renderPyFloat_safe f1 c hc).1
  have hb2 : ∀ c ∈ renderPyFloat f2, c ≠ ',' := fun c hc => (renderPyFloat_safe f2 c hc).1
  have hb3 : ∀ c ∈ renderPyFloat f3, c ≠ '\x7d' := fun c hc => (renderPyFloat_safe f3 c hc).2
  unfold loadReading
  rw [data_asString]
  simp only [List.append_assoc, List.cons_append, List.nil_append,
    dropLit_step, dropLit_nil, Option.some_bind]
  rw [readTok_boundary ('"') ts _ hts]
  simp only [Option.some_bind, dropLit_step, dropLit_nil, List.nil_append,
    List.append_assoc, List.cons_append]
  rw [readTok_boundary (',') (renderPyFloat f1) _ hb1]
  simp only [Option.some_bind]
  rw [parseJsonNumber_render]
  simp only [Option.some_bind, dropLit_step, dropLit_nil, List.nil_append,
    List.append_assoc, List.cons_append]
  rw [readTok_boundary (',') (renderPyFloat f2) _ hb2]
  simp only [Option.some_bind]
  rw [parseJsonNumber_render]
  simp only [Option.some_bind, dropLit_step, dropLit_nil, List.nil_append,
    List.append_assoc, List.cons_append]
  rw [readTok_boundary ('\x7d') (renderPyFloat f3) _ hb3]
  simp only [Option.some_bind]
  rw [parseJsonNumber_render]
  simp only [Option.some_bind]
  rfl

/-! Helper lemmas about the ingestion loop. -/

theorem try_parse_single_term (now : String) : try_parse_single now ("~") = none := rfl

theorem loopStep_single (pubOk : Bool) (now : String) (st : LoopState) (raw : String)
    (r : Reading) (hs : pyStrip raw = raw) (hne : raw ≠ (""))
    (ht : try_parse_single now raw = some r) :
    loopStep pubOk now st raw =
      if pubOk then .ok ⟨st.frame, some (dumps r)⟩ else .crashed := by
  unfold loopStep
  simp only [hs, if_neg hne, ht]

theorem loopStep_frame (pubOk : Bool) (now : String) (st : LoopState) (raw : String)
    (hs : pyStrip raw = raw) (hne : raw ≠ ("")) (ht : try_parse_single now raw = none)
    (hterm : raw ≠ ("~")) :
    loopStep pubOk now st raw = .ok ⟨capFrame (st.frame ++ [raw]), st.published⟩ := by
  unfold loopStep
  simp only [hs, if_neg hne, ht, if_neg hterm]

theorem loopStep_term (pubOk : Bool) (now : String) (st : LoopState) :
    loopStep pubOk now st ("~") =
      match parse_amws_frame now (st.frame ++ [("~")]) with
      | .ok sample => .ok ⟨[], if pubOk then some (dumps sample) else st.published⟩
      | .error _ => .ok ⟨[], st.published⟩ := by
  unfold loopStep
  have h1 : pyStrip ("~") = ("~") := by decide
  have h2 : ("~" : String) ≠ ("") := by decide
  simp only [h1, if_neg h2, try_parse_single_term, if_pos rfl]
  cases parse_amws_frame now (st.frame ++ [("~")]) <;> rfl

example : pyFloat ("22.4") = some (.finite 224 1) := by decide
example : pyFloat (" 1001.90 ") = some (.finite 100190 2) := by decide
example : pyFloat ("50") = some (.finite 50 0) := by decide
example : pyFloat ("-2e-3") = some (.finite (-2) 3) := by decide
example : pyFloat ("1_0.5") = some (.finite 105 1) := by decide
example : pyFloat ("nan") = some .nan := by decide
example : pyFloat ("-Infinity") = some (.inf true) := by decide
example : pyFloat ("") = none := by decide
example : pyFloat ("1__0") = none := by decide
example : pyFloat ("_1") = none := by decide
example : pyFloat ("1.") = some (.finite 1 0) := by decide
example : pyFloat (".5e+1") = some (.finite 5 0) := by decide
example : pyFloat ("1e") = none := by decide
example : pyFloat ("abc") = none := by decide

example :
    parse_line ("t0") ("T=23.4,H=56.1,P=1012.8") =
      .ok ⟨"t0", .finite 234 1, .finite 561 1, .finite 10128 1⟩ := rfl

example : amws_kv [("TA:22.4"), ("RH:50"), ("BA:1001.90"), ("~")] =
    [("TA", "22.4"), ("RH", "50"), ("BA", "1001.90")] := by decide

example : amws_kv [("ta: 1 : 2")] = [("ta", "1 ")] := by decide

example :
    parse_amws_frame ("t0") [("TA:22.4"), ("RH:50"), ("BA:1001.90"), ("~")] =
      .ok ⟨"t0", .finite 224 1, .finite 50 0, .finite 100190 2⟩ := rfl

example : try_parse_single ("t0") ("~") = none := by decide

example :
    dumps ⟨"t0", .finite 224 1, .inf false, .nan⟩ =
      ("\x7b\"ts\": \"t0\", \"temperature_c\": 224e-1, \"humidity_pct\": Infinity, \"pressure_hpa\": NaN\x7d") := by
  decide

example :
    loadReading (dumps ⟨"t0", .finite 224 1, .inf false, .nan⟩) =
      some ⟨"t0", .finite 224 1, .inf false, .nan⟩ := by decide

example :
    loopStep true ("t0") ⟨[], none⟩ ("T=1,H=2,P=3") =
      .ok ⟨[], some (dumps ⟨"t0", .finite 1 0, .finite 2 0, .finite 3 0⟩)⟩ := by decide

example : loopStep false ("t0") ⟨[], none⟩ ("T=1,H=2,P=3") = .crashed := by decide

example :
    runLines true ("t0") ⟨[], none⟩ [("TA:22.4"), ("RH:50"), ("BA:1001.90"), ("~")] =
      .ok ⟨[], some (dumps ⟨"t0", .finite 224 1, .finite 50 0, .finite 100190 2⟩)⟩ := by
  decide

/-! Claim theorems. -/

/-- Claim C1 (counterexample): a publish failure (`pubOk = false`) after a
successfully built single-line sample terminates the ingestion loop,
because the `write_atomic` call on the single-line path (collector.py line
110) is not inside any `try`.  This refutes the claim that a publish
failure never terminates the loop. -/
theorem c1_counterexample :
    loopStep false ("t0") ⟨[], none⟩ ("T=1,H=2,P=3") = .crashed := by decide

/-- Claim C1 (amended): every decode failure — any line whose single-line
decode fails, including malformed frames and publish failures on the
multi-line path — is caught and the loop continues; but a publish failure
after a successfully built single-line sample propagates and terminates
the loop. -/
theorem c1_amended (pubOk : Bool) (now : String) (st : LoopState) (raw : String)
    (hs : pyStrip raw = raw) :
    (try_parse_single now raw = none → loopStep pubOk now st raw ≠ .crashed) ∧
    (∀ r, try_parse_single now raw = some r → raw ≠ ("") →
      loopStep false now st raw = .crashed) := by
  constructor
  · intro ht
    by_cases he : raw = ("")
    · subst he
      have h0 : loopStep pubOk now st ("") = .ok st := rfl
      rw [h0]
      simp
    · by_cases hterm : raw = ("~")
      · subst hterm
        rw [loopStep_term]
        cases parse_amws_frame now (st.frame ++ [("~")]) <;> simp
      · rw [loopStep_frame pubOk now st raw hs he ht hterm]
        simp
  · intro r ht hne
    rw [loopStep_single false now st raw r hs hne ht]
    simp

theorem c1_amended_witness :
    (loopStep true ("t0") ⟨[], none⟩ ("x") ≠ .crashed) ∧
    loopStep false ("t0") ⟨[], none⟩ ("T=1,H=2,P=3") = .crashed := by
  constructor
  · exact (c1_amended true ("t0") ⟨[], none⟩ ("x") (by decide)).1 (by decide)
  · exact (c1_amended false ("t0") ⟨[], none⟩ ("T=1,H=2,P=3") (by decide)).2
      ⟨("t0"), .finite 1 0, .finite 2 0, .finite 3 0⟩ (by decide) (by decide)

/-- Claim C2 (counterexample): the line "T=1,H=2" matches the single-line
grammar (key=value pairs joined by commas) and arrives while the assembler
is IDLE, yet it is appended to the frame buffer instead of being emitted
(its decode fails for the missing pressure field); and "T=1,H=2,P=3" is
emitted as a single-line unit even while the assembler is ACCUMULATING
(non-empty buffer), which the claim forbids. -/
theorem c2_counterexample :
    loopStep true ("t0") ⟨[], none⟩ ("T=1,H=2") = .ok ⟨[("T=1,H=2")], none⟩ ∧
    loopStep true ("t0") ⟨[("junk")], none⟩ ("T=1,H=2,P=3") =
      .ok ⟨[("junk")], some (dumps ⟨("t0"), .finite 1 0, .finite 2 0, .finite 3 0⟩)⟩ := by
  exact ⟨by decide, by decide⟩

/-- Claim C2 (amended): a raw line is emitted as a single-line unit exactly
when its full single-line decode (grammar, key normalization, and sample
construction) succeeds, regardless of assembler state — the buffer is then
left untouched; a line whose single-line decode fails (and which is not the
terminator) is appended to the frame buffer. -/
theorem c2_amended (now : String) (st : LoopState) (raw : String)
    (hs : pyStrip raw = raw) (hne : raw ≠ ("")) :
    (∀ r, try_parse_single now raw = some r →
      loopStep true now st raw = .ok ⟨st.frame, some (dumps r)⟩) ∧
    (try_parse_single now raw = none → raw ≠ ("~") →
      loopStep true now st raw = .ok ⟨capFrame (st.frame ++ [raw]), st.published⟩) := by
  constructor
  · intro r ht
    rw [loopStep_single true now st raw r hs hne ht]
    simp
  · intro ht hterm
    exact loopStep_frame true now st raw hs hne ht hterm

theorem c2_amended_witness :
    loopStep true ("t0") ⟨[("junk")], none⟩ ("T=1,H=2,P=3") =
      .ok ⟨[("junk")], some (dumps ⟨("t0"), .finite 1 0, .finite 2 0, .finite 3 0⟩)⟩ ∧
    loopStep true ("t0") ⟨[], none⟩ ("T=1,H=2") = .ok ⟨capFrame ([] ++ [("T=1,H=2")]), none⟩ := by
  constructor
  · exact (c2_amended ("t0") ⟨[("junk")], none⟩ ("T=1,H=2,P=3") (by decide) (by decide)).1
      ⟨("t0"), .finite 1 0, .finite 2 0, .finite 3 0⟩ (by decide)
  · exact (c2_amended ("t0") ⟨[], none⟩ ("T=1,H=2") (by decide) (by decide)).2
      (by decide) (by decide)

/-- Claim C5: feeding "TA:22.4", "RH:50", "BA:1001.90" and then the
terminator "~" into the assembler starting from IDLE yields a Reading with
temperature 22.4 (= 224/10^1), humidity 50 and pressure 1001.90
(= 100190/10^2), publishes it, and leaves the frame buffer empty
immediately after the terminator is processed. -/
theorem c5_multiline_frame (now : String) :
    parse_amws_frame now [("TA:22.4"), ("RH:50"), ("BA:1001.90"), ("~")] =
      .ok ⟨now, .finite 224 1, .finite 50 0, .finite 100190 2⟩ ∧
    runLines true now ⟨[], none⟩ [("TA:22.4"), ("RH:50"), ("BA:1001.90"), ("~")] =
      .ok ⟨[], some (dumps ⟨now, .finite 224 1, .finite 50 0, .finite 100190 2⟩)⟩ :=
  ⟨rfl, rfl⟩

/-- Claim C7: when the frame buffer exceeds the 300-line cap after a
non-terminated line is appended, it is truncated to exactly the most recent
50 lines (not cleared), no exception is raised, the assembler remains
ACCUMULATING (non-empty buffer), and a subsequent terminator decodes a
frame built from the retained tail only. -/
theorem c7_truncation (pubOk : Bool) (now : String) (st : LoopState) (raw : String)
    (hs : pyStrip raw = raw) (hne : raw ≠ ("")) (hterm : raw ≠ ("~"))
    (ht : try_parse_single now raw = none)
    (hlen : (st.frame ++ [raw]).length > 300) :
    loopStep pubOk now st raw =
      .ok ⟨(st.frame ++ [raw]).drop ((st.frame ++ [raw]).length - 50), st.published⟩ ∧
    ((st.frame ++ [raw]).drop ((st.frame ++ [raw]).length - 50)).length = 50 ∧
    (st.frame ++ [raw]).drop ((st.frame ++ [raw]).length - 50) ≠ [] ∧
    (∀ s : Reading,
      parse_amws_frame now
        ((st.frame ++ [raw]).drop ((st.frame ++ [raw]).length - 50) ++ [("~")]) = .ok s →
      loopStep true now
        ⟨(st.frame ++ [raw]).drop ((st.frame ++ [raw]).length - 50), st.published⟩ ("~") =
        .ok ⟨[], some (dumps s)⟩) := by
  have hcap : capFrame (st.frame ++ [raw]) =
      (st.frame ++ [raw]).drop ((st.frame ++ [raw]).length - 50) := by
    unfold capFrame
    rw [if_pos hlen]
  have hlen50 : ((st.frame ++ [raw]).drop ((st.frame ++ [raw]).length - 50)).length = 50 := by
    rw [List.length_drop]
    omega
  refine ⟨?_, hlen50, ?_, ?_⟩
  · rw [loopStep_frame pubOk now st raw hs hne ht hterm, hcap]
  · intro hnil
    rw [hnil] at hlen50
    simp at hlen50
  · intro s hp
    rw [loopStep_term true now _]
    simp only [hp, if_true]

set_option maxRecDepth 8000 in
theorem c7_truncation_witness :
    loopStep true ("t0") ⟨List.replicate 298 ("x") ++ [("TA:1"), ("RH:2"), ("BA:3")], none⟩ ("y") =
      .ok ⟨((List.replicate 298 ("x") ++ [("TA:1"), ("RH:2"), ("BA:3")]) ++ [("y")]).drop
            (((List.replicate 298 ("x") ++ [("TA:1"), ("RH:2"), ("BA:3")]) ++ [("y")]).length - 50),
          none⟩ ∧
    (((List.replicate 298 ("x") ++ [("TA:1"), ("RH:2"), ("BA:3")]) ++ [("y")]).drop
      (((List.replicate 298 ("x") ++ [("TA:1"), ("RH:2"), ("BA:3")]) ++ [("y")]).length - 50)).length = 50 ∧
    loopStep true ("t0")
      ⟨((List.replicate 298 ("x") ++ [("TA:1"), ("RH:2"), ("BA:3")]) ++ [("y")]).drop
        (((List.replicate 298 ("x") ++ [("TA:1"), ("RH:2"), ("BA:3")]) ++ [("y")]).length - 50),
       none⟩ ("~") =
      .ok ⟨[], some (dumps ⟨("t0"), .finite 1 0, .finite 2 0, .finite 3 0⟩)⟩ := by
  have h := c7_truncation true ("t0") ⟨List.replicate 298 ("x") ++ [("TA:1"), ("RH:2"), ("BA:3")], none⟩
    ("y") (by decide) (by decide) (by decide) (by decide) (by decide)
  exact ⟨h.1, h.2.1, h.2.2.2 ⟨("t0"), .finite 1 0, .finite 2 0, .finite 3 0⟩ rfl⟩

/-- Claim C8: a completed unit (single line or assembled frame) whose
normalized map lacks a canonical field fails construction, the loop does
not crash, and the published snapshot — content or absence — is exactly
preserved. -/
theorem c8_missing_field_preserves (pubOk : Bool) (now : String) (st : LoopState) (raw : String)
    (hs : pyStrip raw = raw)
    (h1 : raw ≠ ("~") → ∃ k, parse_line now raw = .error (.missingField k))
    (h2 : raw = ("~") → ∃ k, parse_amws_frame now (st.frame ++ [raw]) = .error (.missingField k)) :
    resultPublished (loopStep pubOk now st raw) = some st.published := by
  by_cases he : raw = ("")
  · subst he
    have h0 : loopStep pubOk now st ("") = .ok st := rfl
    rw [h0]
    rfl
  · by_cases hterm : raw = ("~")
    · obtain ⟨k, hk⟩ := h2 hterm
      subst hterm
      rw [loopStep_term]
      simp only [hk]
      rfl
    · obtain ⟨k, hk⟩ := h1 hterm
      have ht : try_parse_single now raw = none := by
        unfold try_parse_single
        rw [hk]
        rfl
      rw [loopStep_frame pubOk now st raw hs he ht hterm]
      rfl

theorem c8_missing_field_preserves_witness :
    resultPublished (loopStep true ("t0") ⟨[], some ("prev")⟩ ("X=1")) = some (some ("prev")) := by
  exact c8_missing_field_preserves true ("t0") ⟨[], some ("prev")⟩ ("X=1") (by decide)
    (fun _ => ⟨("temperature"), rfl⟩) (fun h => absurd h (by decide))

/-- Claim C3 (counterexample): a value text "nan" parses (Python's `float`
accepts it), so sample construction succeeds and produces a Reading with a
NaN temperature rather than failing with a value-format error, refuting
the claim that non-finite values are rejected. -/
theorem c3_counterexample :
    build_sample ("t0")
      [(("temperature"), ("nan")), (("humidity"), ("50")), (("pressure"), ("1000"))] =
      .ok ⟨("t0"), .nan, .finite 50 0, .finite 1000 0⟩ := rfl

/-- Claim C3 (amended): with all three canonical keys present in the
normalized map, construction fails with a value-format failure if and only
if some present value's text cannot be parsed by Python's `float` at all;
texts spelling NaN or infinity parse successfully and produce a Reading. -/
theorem c3_amended (now : String) (payload : List (String × String)) (vt vh vp : String)
    (ht : dictGet? (normalize_keys payload) ("temperature") = some vt)
    (hh : dictGet? (normalize_keys payload) ("humidity") = some vh)
    (hp : dictGet? (normalize_keys payload) ("pressure") = some vp) :
    ((∃ k v, build_sample now payload = .error (.valueFormat k v)) ↔
      (pyFloat vt = none ∨ pyFloat vh = none ∨ pyFloat vp = none)) ∧
    ((∃ r, build_sample now payload = .ok r) ↔
      (pyFloat vt ≠ none ∧ pyFloat vh ≠ none ∧ pyFloat vp ≠ none)) := by
  simp only [build_sample, getField]
  rw [ht, hh, hp]
  cases hvt : pyFloat vt <;> cases hvh : pyFloat vh <;> cases hvp : pyFloat vp <;>
    simp [hvt, hvh, hvp]

theorem c3_amended_witness :
    dictGet? (normalize_keys [(("t"), ("abc")), (("h"), ("1")), (("p"), ("2"))])
      ("temperature") = some ("abc") ∧
    (pyFloat ("abc") = none ∨ pyFloat ("1") = none ∨ pyFloat ("2") = none) := by
  refine ⟨by decide, ?_⟩
  exact ((c3_amended ("t0") [(("t"), ("abc")), (("h"), ("1")), (("p"), ("2"))]
    ("abc") ("1") ("2") (by decide) (by decide) (by decide)).1).mp
    ⟨("temperature"), ("abc"), rfl⟩

/-- Claim C4 (counterexample): for the buffered line "ta:1:2" the dispatcher
stores the pair ("ta", "1"): the key keeps its original case (no
upper-casing happens), and the value is truncated at the second ':' rather
than keeping the entire remainder "1:2". -/
theorem c4_counterexample :
    amws_kv [("ta:1:2")] = [(("ta"), ("1"))] ∧
    amws_kv [("ta:1:2")] ≠ [(("TA"), ("1:2"))] := by
  exact ⟨by decide, by decide⟩

/-- Claim C4 (amended): for each buffered line containing ':', the dispatcher
splits at the first ':' only; the key is the trimmed text before it with its
original case preserved (canonicalization lower-cases it later), and the
value is the trimmed remainder truncated before any further ':' (text after
a second colon is dropped); lines without ':' are ignored. -/
theorem c4_amended (ls : List String) (s : String) :
    amws_kv (ls ++ [s]) =
      if s.data.contains ':' then
        dictInsert (amws_kv ls)
          (stripChars (s.data.takeWhile (fun c => c != ':'))).asString
          ((stripChars ((s.data.dropWhile (fun c => c != ':')).tail)).takeWhile
            (fun c => c != ':')).asString
      else amws_kv ls := by
  unfold amws_kv
  rw [List.foldl_append]
  simp only [List.foldl_cons, List.foldl_nil]
  by_cases hc : s.data.contains ':' = true
  · rw [if_pos hc, if_pos hc, splitFirstAux_fst, splitFirstAux_snd _ _ hc]
    simp only [Option.getD_some]
    rw [splitFirstAux_fst]
  · rw [if_neg hc, if_neg hc]

/-- Claim C10: normalization keeps, for each canonical key, the stripped
value of whichever recognised alias occurs last in the payload's iteration
order (later aliases silently overwrite earlier ones). -/
theorem c10_last_alias (payload : List (String × String)) (canon : String) :
    dictGet? (normalize_keys payload) canon =
      (payload.reverse.find? (fun kv => canonOf kv.1 == some canon)).map
        (fun kv => pyStrip kv.2) := by
  induction payload using List.reverseRecOn with
  | nil => rfl
  | append_singleton l kv ih =>
    unfold normalize_keys at ih ⊢
    rw [List.foldl_append]
    simp only [List.foldl_cons, List.foldl_nil, List.reverse_append, List.reverse_cons,
      List.reverse_nil, List.nil_append, List.cons_append, List.singleton_append]
    cases hkv : canonOf kv.1 with
    | none =>
      have hpred : (canonOf kv.1 == some canon) = false := by
        rw [hkv]
        rfl
      simp only [hkv, List.find?_cons, hpred]
      simpa using ih
    | some c' =>
      simp only [hkv]
      rw [dictGet?_insert]
      by_cases hcc : canon = c'
      · subst hcc
        have hpred : (canonOf kv.1 == some canon) = true := by
          rw [hkv]
          simp
        simp [List.find?_cons, hpred]
      · have hpred : (canonOf kv.1 == some canon) = false := by
          rw [hkv]
          have hne : c' ≠ canon := fun h => hcc h.symm
          simpa using hne
        rw [if_neg hcc]
        simp only [List.find?_cons, hpred, Bool.false_eq_true, if_false]
        exact ih

/-- Claim C9: serializing a Reading to the published snapshot text and
parsing that text back (as the reader does) yields exactly the original
three field values and the identical timestamp string, character for
character.  The model's float values are exact decimals, so "equal within
floating-point tolerance" is met by exact equality.  The timestamp is
assumed to consist of plain printable characters needing no JSON escape,
which is true of every `datetime.isoformat()` string. -/
theorem c9_round_trip (r : Reading) (hts : ∀ c ∈ r.ts.data, tsPlain c) :
    loadReading (dumps r) = some r := by
  have hq : ∀ c ∈ r.ts.data, c ≠ '"' := fun c hc => ((hts c hc).2.2).1
  have hd : dumps r = List.asString (("\x7b\"ts\": \"").data ++ (r.ts.data ++
      (("\", \"temperature_c\": ").data ++ (renderPyFloat r.temperature_c ++
      ((", \"humidity_pct\": ").data ++ (renderPyFloat r.humidity_pct ++
      ((", \"pressure_hpa\": ").data ++ (renderPyFloat r.pressure_hpa ++
      ("\x7d").data)))))))) := by
    apply strExt
    simp only [dumps, dataAppend, data_asString, List.append_assoc]
  rw [hd, loadReading_build r.ts.data _ _ _ hq, asString_data]

theorem c9_round_trip_witness :
    loadReading (dumps ⟨("2024-01-01T00:00:00+00:00"), .finite 224 1, .finite 50 0,
      .finite 100190 2⟩) =
    some ⟨("2024-01-01T00:00:00+00:00"), .finite 224 1, .finite 50 0, .finite 100190 2⟩ :=
  c9_round_trip _ (by decide)

/-- Claim C6: for every compact line "T=a,H=b,P=c" whose value texts are
float-parseable (and, being placed directly between '=' and ',', contain no
comma, equals sign or whitespace), decoding yields a Reading carrying
exactly the three parsed values, and its timestamp is the decode-time
instant `now` itself — hence not older than the call time. -/
theorem c6_compact (now a b c : String) (va vb vc : PyFloat)
    (ha : ∀ ch ∈ a.data, isPySpace ch = false ∧ ch ≠ ',' ∧ ch ≠ '=')
    (hb : ∀ ch ∈ b.data, isPySpace ch = false ∧ ch ≠ ',' ∧ ch ≠ '=')
    (hc : ∀ ch ∈ c.data, isPySpace ch = false ∧ ch ≠ ',' ∧ ch ≠ '=')
    (hva : pyFloat a = some va) (hvb : pyFloat b = some vb) (hvc : pyFloat c = some vc) :
    parse_line now (("T=") ++ a ++ (",H=") ++ b ++ (",P=") ++ c) = .ok ⟨now, va, vb, vc⟩ := by
  have hsa : pyStrip a = a := pyStrip_no_space a (fun ch hch => (ha ch hch).1)
  have hsb : pyStrip b = b := pyStrip_no_space b (fun ch hch => (hb ch hch).1)
  have hsc : pyStrip c = c := pyStrip_no_space c (fun ch hch => (hc ch hch).1)
  have hTne : ∀ ch ∈ 'T' :: '=' :: a.data, ch ≠ ',' := by
    intro ch hch
    rcases List.mem_cons.mp hch with h | h
    · subst h
      decide
    · rcases List.mem_cons.mp h with h2 | h2
      · subst h2
        decide
      · exact (ha ch h2).2.1
  have hHne : ∀ ch ∈ 'H' :: '=' :: b.data, ch ≠ ',' := by
    intro ch hch
    rcases List.mem_cons.mp hch with h | h
    · subst h
      decide
    · rcases List.mem_cons.mp h with h2 | h2
      · subst h2
        decide
      · exact (hb ch h2).2.1
  have hPne : ∀ ch ∈ 'P' :: '=' :: c.data, ch ≠ ',' := by
    intro ch hch
    rcases List.mem_cons.mp hch with h | h
    · subst h
      decide
    · rcases List.mem_cons.mp h with h2 | h2
      · subst h2
        decide
      · exact (hc ch h2).2.1
  have hstT : stripChars ('T' :: '=' :: a.data) = 'T' :: '=' :: a.data := by
    apply stripChars_no_space
    intro ch hch
    rcases List.mem_cons.mp hch with h | h
    · subst h
      decide
    · rcases List.mem_cons.mp h with h2 | h2
      · subst h2
        decide
      · exact (ha ch h2).1
  have hstH : stripChars ('H' :: '=' :: b.data) = 'H' :: '=' :: b.data := by
    apply stripChars_no_space
    intro ch hch
    rcases List.mem_cons.mp hch with h | h
    · subst h
      decide
    · rcases List.mem_cons.mp h with h2 | h2
      · subst h2
        decide
      · exact (hb ch h2).1
  have hstP : stripChars ('P' :: '=' :: c.data) = 'P' :: '=' :: c.data := by
    apply stripChars_no_space
    intro ch hch
    rcases List.mem_cons.mp hch with h | h
    · subst h
      decide
    · rcases List.mem_cons.mp h with h2 | h2
      · subst h2
        decide
      · exact (hc ch h2).1
  have hdata : (("T=") ++ a ++ (",H=") ++ b ++ (",P=") ++ c).data =
      ('T' :: '=' :: a.data) ++ ',' :: (('H' :: '=' :: b.data) ++ ',' :: ('P' :: '=' :: c.data)) := by
    simp only [dataAppend, List.append_assoc, List.cons_append, List.nil_append]
  have hsplit : splitAllAux ','
      (('T' :: '=' :: a.data) ++ ',' :: (('H' :: '=' :: b.data) ++ ',' :: ('P' :: '=' :: c.data))) =
      ('T' :: '=' :: a.data) :: ('H' :: '=' :: b.data) :: [('P' :: '=' :: c.data)] := by
    rw [splitAllAux_append_sep ',' _ _ hTne, splitAllAux_append_sep ',' _ _ hHne,
      splitAllAux_no_sep ',' _ hPne]
  have hsf : ∀ (x : Char) (l : Chars), x ≠ '=' → splitFirstAux '=' (x :: '=' :: l) = ([x], some l) := by
    intro x l hx
    simp [splitFirstAux, hx]
  have hco : ∀ (x : Char) (l : Chars), ((x :: '=' :: l).contains '=') = true := by
    intro x l
    simp [List.contains_cons]
  unfold parse_line
  rw [hdata, hsplit]
  simp only [List.filter_cons, List.filter_nil, hco, if_true, List.map_cons, List.map_nil,
    hstT, hstH, hstP, List.foldl_cons, List.foldl_nil]
  rw [hsf 'T' a.data (by decide), hsf 'H' b.data (by decide), hsf 'P' c.data (by decide)]
  simp only [Option.getD_some, asString_data]
  have hkT : List.asString ['T'] = ("T") := rfl
  have hkH : List.asString ['H'] = ("H") := rfl
  have hkP : List.asString ['P'] = ("P") := rfl
  rw [hkT, hkH, hkP]
  have hd1 : dictInsert [] ("T") a = [(("T"), a)] := rfl
  have hd2 : dictInsert [(("T"), a)] ("H") b = [(("T"), a), (("H"), b)] := by
    simp [dictInsert]
  have hd3 : dictInsert [(("T"), a), (("H"), b)] ("P") c =
      [(("T"), a), (("H"), b), (("P"), c)] := by
    simp [dictInsert]
  rw [hd1, hd2, hd3]
  simp only [build_sample, getField, normalize_keys, List.foldl_cons, List.foldl_nil]
  have hcT : canonOf ("T") = some ("temperature") := rfl
  have hcH : canonOf ("H") = some ("humidity") := rfl
  have hcP : canonOf ("P") = some ("pressure") := rfl
  simp only [hcT, hcH, hcP, hsa, hsb, hsc]
  have hn1 : dictInsert [] ("temperature") a = [(("temperature"), a)] := rfl
  have hn2 : dictInsert [(("temperature"), a)] ("humidity") b =
      [(("temperature"), a), (("humidity"), b)] := by
    simp [dictInsert]
  have hn3 : dictInsert [(("temperature"), a), (("humidity"), b)] ("pressure") c =
      [(("temperature"), a), (("humidity"), b), (("pressure"), c)] := by
    simp [dictInsert]
  rw [hn1, hn2, hn3]
  have hg1 : dictGet? [(("temperature"), a), (("humidity"), b), (("pressure"), c)]
      ("temperature") = some a := by
    simp [dictGet?]
  have hg2 : dictGet? [(("temperature"), a), (("humidity"), b), (("pressure"), c)]
      ("humidity") = some b := by
    simp [dictGet?]
  have hg3 : dictGet? [(("temperature"), a), (("humidity"), b), (("pressure"), c)]
      ("pressure") = some c := by
    simp [dictGet?]
  rw [hg1, hg2, hg3]
  simp only [hva, hvb, hvc]

theorem c6_compact_witness :
    parse_line ("t0") (("T=") ++ ("1.5") ++ (",H=") ++ ("2") ++ (",P=") ++ ("3.25")) =
      .ok ⟨("t0"), .finite 15 1, .finite 2 0, .finite 325 2⟩ :=
  c6_compact ("t0") ("1.5") ("2") ("3.25") (.finite 15 1) (.finite 2 0) (.finite 325 2)
    (by decide) (by decide) (by decide) (by decide) (by decide) (by decide)
